import Mathlib

/-!
Verification of the expiration-reminder engine of the `xf` repository
(`app/reminders.py`, `app/db.py`, `app/web.py`, `app/main.py`).

The Python code is shallowly embedded: calendar dates are modelled as day
numbers (`Int`, the result of `datetime.date` arithmetic; ISO date strings
are injective on dates, so a day number is a faithful key), the SQLite
tables touched by the engine are modelled as Lean lists, and the two
effectful collaborators (`render_template` + `send_html_email`) are
modelled by per-row oracles on the subscription row: `transportFails`
records whether the render/SMTP call raises when attempted.
-/

namespace XfReminder

/-- Embeds Python `str.strip()` (drop leading and trailing whitespace). -/
def pyStrip (s : String) : String :=
  ⟨((s.data.dropWhile Char.isWhitespace).reverse.dropWhile Char.isWhitespace).reverse⟩

/-- Embeds Python `str.lower()`. -/
def pyLower (s : String) : String :=
  ⟨s.data.map Char.toLower⟩

/-- `DEFAULT_RULES = [30, 7, 1, 0]` (db.py line 76), also the inline default
in `reminders.py` lines 116 and 197. -/
def DEFAULT_RULES : List Int := [30, 7, 1, 0]

/-- `sorted({int(x) for x in rules}, reverse=True)` (reminders.py lines 117
and 198, main.py line 844): remove duplicates, sort descending. -/
def normalizeRules (l : List Int) : List Int :=
  List.insertionSort (fun a b => a ≥ b) l.dedup

/-- Python `max(rules) if rules else 0` (reminders.py lines 118 and 199). -/
def listMaxOr0 : List Int → Int
  | [] => 0
  | x :: xs => xs.foldl max x

/-- Python `min` of a nonempty list given as head and tail. -/
def listMinNonempty (x : Int) (xs : List Int) : Int := xs.foldl min x

/-- `_pick_rule_for_display(rules, days_left)` (reminders.py lines 14-26):
clamp `days_left` to 0, return the smallest rule `r >= dl`; if no rule
qualifies return `max(rules)`; if `rules` is empty return the clamp. -/
def pick_rule_for_display (rules : List Int) (days_left : Int) : Int :=
  match rules with
  | [] => max days_left 0
  | r :: rs =>
    let dl := max days_left 0
    match (r :: rs).filter (fun x => dl ≤ x) with
    | [] => listMaxOr0 (r :: rs)
    | c :: cs => listMinNonempty c cs

/-- One joined subscription row as seen by the scan
(`list_all_subscription_details`, db.py lines 450-487), restricted to the
fields the engine's control flow reads.
`expires` is the result of `date.fromisoformat(str(s["expires_at"]))`
as a day number: `none` models a string on which the parse raises.
`transportFails` is the oracle for "render_template or send_html_email
raises when invoked for this row". -/
structure SubRow where
  id : Int
  expires : Option Int
  customer_email : String
  transportFails : Bool
deriving DecidableEq

/-- `_send_one` (reminders.py lines 29-96) as observed by its caller:
`some false` when the stripped customer email is empty (early return at
line 41), `none` when rendering or the SMTP call raises (exception
propagates to the caller), `some true` on a confirmed successful send. -/
def send_one (s : SubRow) : Option Bool :=
  if pyStrip s.customer_email = "" then some false
  else if s.transportFails then none
  else some true

/-- The `reminder_daily_sends` table keyed by its UNIQUE(subscription_id,
sent_date) pair (db.py lines 59-66). -/
abbrev Ledger := List (Int × Int)

/-- `was_sent_on` (db.py lines 571-578): SELECT on the (id, date) pair. -/
def was_sent_on (led : Ledger) (sid d : Int) : Bool :=
  decide ((sid, d) ∈ led)

/-- `mark_sent_on` (db.py lines 580-586): INSERT OR IGNORE against the
UNIQUE(subscription_id, sent_date) constraint — a row is added only when
the pair is absent; a duplicate insert is a silent no-op. -/
def mark_sent_on (led : Ledger) (sid d : Int) : Ledger :=
  if (sid, d) ∈ led then led else (sid, d) :: led

/-- Number of ledger rows for one (subscription, date) pair. -/
def countPair : Ledger → Int → Int → Nat
  | [], _, _ => 0
  | p :: ps, sid, d => (if p = (sid, d) then 1 else 0) + countPair ps sid d

/-- The counters built up by `scan_and_send` (reminders.py lines 130-139). -/
structure ScanStats where
  checked : Nat
  eligible : Nat
  skipped : Nat
  sent : Nat
  errors : Nat
deriving DecidableEq

def initStats : ScanStats := ⟨0, 0, 0, 0, 0⟩

/-- What the loop body of `scan_and_send` (reminders.py lines 141-184) does
with one row, before the counters are updated. The five cases follow the
source's control flow in order: parse failure (`except: continue`),
the two window exclusions, the daily guard, then the send outcome. -/
inductive RowOutcome where
  | unparsed
  | excluded
  | alreadySent
  | sentOk
  | errored
deriving DecidableEq

/-- The branch of the `scan_and_send` loop body taken for row `s` given the
current ledger (reminders.py lines 143-184). -/
def rowOutcome (today th : Int) (led : Ledger) (s : SubRow) : RowOutcome :=
  match s.expires with
  | none => .unparsed
  | some e =>
    let d := e - today
    if d < -1 then .excluded
    else if d > th then .excluded
    else if was_sent_on led s.id today then .alreadySent
    else
      match send_one s with
      | some true => .sentOk
      | some false => .errored
      | none => .errored

/-- One iteration of the `scan_and_send` loop (reminders.py lines 141-184):
counter updates and the conditional `mark_sent_on`, dispatched on the
branch taken. `checked` is bumped first (line 142); `eligible` at line
158; the ledger is written only in the confirmed-success branch (line
179). -/
def scanStep (today th : Int) (led : Ledger) (st : ScanStats) (s : SubRow) :
    ScanStats × Ledger :=
  match rowOutcome today th led s with
  | .unparsed => ({ st with checked := st.checked + 1 }, led)
  | .excluded => ({ st with checked := st.checked + 1 }, led)
  | .alreadySent =>
      ({ st with checked := st.checked + 1, eligible := st.eligible + 1,
                 skipped := st.skipped + 1 }, led)
  | .sentOk =>
      ({ st with checked := st.checked + 1, eligible := st.eligible + 1,
                 sent := st.sent + 1 }, mark_sent_on led s.id today)
  | .errored =>
      ({ st with checked := st.checked + 1, eligible := st.eligible + 1,
                 errors := st.errors + 1 }, led)

/-- The `for s in subs` loop of `scan_and_send`, threading counters and the
daily-send table. -/
def scanLoop (today th : Int) : List SubRow → ScanStats → Ledger → ScanStats × Ledger
  | [], st, led => (st, led)
  | s :: rest, st, led =>
    let r := scanStep today th led st s
    scanLoop today th rest r.1 r.2

/-- Threshold resolution of `scan_and_send` (reminders.py lines 115-125):
`rulesSetting` is the parsed `reminder_rules` setting (`none` when the
setting is absent/empty, in which case the default applies), `manual` is
the explicit `threshold_days` argument. Manual mode uses the explicit
value; automatic mode uses `max(rules) if rules else 0` after
normalization. -/
def effective_threshold (rulesSetting : Option (List Int)) (manual : Option Int) : Int :=
  manual.getD (listMaxOr0 (normalizeRules (rulesSetting.getD DEFAULT_RULES)))

/-- The dict returned by `scan_and_send` plus the daily-send table it leaves
behind. -/
structure ScanResult where
  manualMode : Bool
  threshold_days : Int
  auto_threshold : Int
  stats : ScanStats
  ledger : Ledger
deriving DecidableEq

/-- `scan_and_send(db, cfg, threshold_days)` (reminders.py lines 99-186).
`subs` is the candidate list returned by `list_all_subscription_details`;
`led` is the `reminder_daily_sends` table at entry. -/
def scan_and_send (rulesSetting : Option (List Int)) (manual : Option Int)
    (today : Int) (subs : List SubRow) (led : Ledger) : ScanResult :=
  let rules := normalizeRules (rulesSetting.getD DEFAULT_RULES)
  let auto := listMaxOr0 rules
  let th := effective_threshold rulesSetting manual
  let r := scanLoop today th subs initStats led
  ⟨manual.isSome, th, auto, r.1, r.2⟩

/-- Specification-level observer of a scan run: the subscription ids for
which the loop took the confirmed-success branch (and therefore an email
was dispatched), threading the ledger exactly as `scanLoop` does. -/
def sentIds (today th : Int) : List SubRow → Ledger → List Int
  | [], _ => []
  | s :: rest, led =>
    match rowOutcome today th led s with
    | .sentOk => s.id :: sentIds today th rest (mark_sent_on led s.id today)
    | _ => sentIds today th rest led

/-- The dict returned by `send_subscription_now` (reminders.py lines
203, 220, 223), restricted to the fields the claims mention. -/
inductive SendNowResult where
  | subscription_not_found
  | customer_email_empty
  | ok (toEmail : String) (sent_date : Int) (days_left : Int)
deriving DecidableEq

/-- `send_subscription_now(db, cfg, subscription_id)` (reminders.py lines
189-223). `sub?` is `db.get_subscription_detail(subscription_id)`; `led`
is the `reminder_daily_sends` table at entry. The overall `none` models an
exception propagating to the caller (`date.fromisoformat` at line 205 or
the render/SMTP call inside `_send_one`). Note the source consults the
configured rules only to compute the display value passed into the
template (line 207); it performs no eligibility-window check and no
`was_sent_on` check before calling `_send_one`. -/
def send_subscription_now (rulesSetting : Option (List Int)) (today : Int)
    (led : Ledger) (sub? : Option SubRow) : Option (SendNowResult × Ledger) :=
  let rules := normalizeRules (rulesSetting.getD DEFAULT_RULES)
  match sub? with
  | none => some (.subscription_not_found, led)
  | some s =>
    match s.expires with
    | none => none
    | some e =>
      let days_left := e - today
      let _display := pick_rule_for_display rules days_left
      match send_one s with
      | none => none
      | some false => some (.customer_email_empty, led)
      | some true =>
          some (.ok s.customer_email today days_left, mark_sent_on led s.id today)

/-- One row of the `customers` table (db.py lines 19-24). -/
structure CustomerRow where
  id : Int
  email : String
  name : Option String
deriving DecidableEq

/-- `upsert_customer(email, name)` (db.py lines 229-239): strip and
lowercase the email, `INSERT ... ON CONFLICT(email) DO UPDATE SET
name=excluded.name`, then SELECT the id by email. `nextId` models the
AUTOINCREMENT counter. The SQLite `email TEXT NOT NULL` constraint rejects
only NULL, never the empty string, and the function performs no emptiness
check of its own, so no statement here can fail: the embedding is total.
Returns (new table, returned id, new AUTOINCREMENT counter). -/
def upsert_customer (table : List CustomerRow) (nextId : Int)
    (email : String) (name : Option String) : List CustomerRow × Int × Int :=
  let e := pyLower (pyStrip email)
  match table.find? (fun c => c.email == e) with
  | some c =>
      (table.map (fun r => if r.email == e then { r with name := name } else r),
       c.id, nextId)
  | none =>
      (table ++ [⟨nextId, e, name⟩], nextId, nextId + 1)

/-- The `settings` key-value table (db.py lines 44-47). -/
abbrev Settings := List (String × String)

/-- `set_setting(key, value)` (db.py lines 212-226): INSERT ... ON
CONFLICT(key) DO UPDATE SET value. Since `key` is the PRIMARY KEY at most
one row per key exists, so the upsert either rewrites that row in place or
appends a new one. -/
def set_setting : Settings → String → String → Settings
  | [], k, v => [(k, v)]
  | kv :: rest, k, v =>
    if kv.1 == k then (k, v) :: rest else kv :: set_setting rest k v

/-- `get_setting(key)` (db.py lines 200-210): SELECT value by key. -/
def get_setting : Settings → String → Option String
  | [], _ => none
  | kv :: rest, k => if kv.1 == k then some kv.2 else get_setting rest k

/-- The `settings_save` POST handler (web.py lines 364-374): read the three
form fields, strip them, and store each verbatim with `set_setting` — no
parsing, validation, sorting or de-duplication happens on this path. -/
def settings_save (st : Settings) (rulesInput emailInput renewInput : String) : Settings :=
  let st1 := set_setting st "reminder_rules" (pyStrip rulesInput)
  let st2 := set_setting st1 "email_template" (pyStrip emailInput)
  set_setting st2 "renewal_confirm_template" (pyStrip renewInput)

/-- `json.dumps` of a list of ints with the default separators, as used by
the chat-bot rules-save path (main.py line 848) and `init` (db.py line
133): the only writers that store a JSON integer list. -/
def jsonEncodeIntList (l : List Int) : String :=
  "[" ++ String.intercalate ", " (l.map (fun n => toString n)) ++ "]"

/-- One row of the legacy `products` table (db.py lines 141-142 comment):
the v3 single-table model embedding the customer reference, the expiry and
the customer-specific content. -/
structure LegacyRow where
  id : Int
  customer_id : Int
  name : String
  content : Option String
  expires_at : String
deriving DecidableEq

/-- One row of the new `subscriptions` table (db.py lines 33-42). -/
structure SubscriptionRow where
  id : Int
  customer_id : Int
  product_id : Int
  expires_at : String
  note : Option String
deriving DecidableEq

/-- The durable (committed) database state during `_maybe_migrate_legacy`.
Because `upsert_product` and `add_subscription` call `conn.commit()`
unconditionally even on the shared migration connection (db.py lines 306
and 395), and `conn.executescript` first issues an implicit COMMIT
(committing the preceding table renames), every successful step of the
migration is durable immediately; an exception partway leaves everything
already processed committed. This state records exactly that committed
data. -/
structure MigState where
  legacy_products_present : Bool
  products : List (Int × String)
  subscriptions : List SubscriptionRow
  nextProductId : Int
  nextSubId : Int
deriving DecidableEq

/-- `upsert_product(name, content=None, conn=conn)` as called from the
migration loop (db.py lines 175 and 293-310): trim the name, insert or
reuse the existing product id, commit. Returns (state, product id). -/
def upsert_product_mig (st : MigState) (name : String) : MigState × Int :=
  let n := pyStrip name
  match st.products.find? (fun p => p.2 == n) with
  | some p => (st, p.1)
  | none =>
      ({ st with products := st.products ++ [(st.nextProductId, n)],
                 nextProductId := st.nextProductId + 1 }, st.nextProductId)

/-- `add_subscription(..., conn=conn)` as called from the migration loop
(db.py lines 176-182 and 378-399): INSERT and commit. The
`FOREIGN KEY(customer_id) REFERENCES customers(id)` check raises
`sqlite3.IntegrityError` (modelled as `none`) when the legacy row's
customer id has no matching customer. -/
def add_subscription_mig (customers : List Int) (st : MigState)
    (cid pid : Int) (expires : String) (note : Option String) :
    Option (MigState × Int) :=
  if cid ∈ customers then
    some ({ st with
              subscriptions :=
                st.subscriptions ++ [⟨st.nextSubId, cid, pid, expires, note⟩],
              nextSubId := st.nextSubId + 1 }, st.nextSubId)
  else none

/-- The per-row loop of `_maybe_migrate_legacy` (db.py lines 165-183) over
the legacy rows (already ordered by id ascending). Returns the committed
state together with `true` on completion, or the committed-so-far state
together with `false` when a row's foreign-key check raises (the exception
aborts the loop but cannot undo the earlier per-row commits). -/
def migrate_rows (customers : List Int) : List LegacyRow → MigState → MigState × Bool
  | [], st => (st, true)
  | r :: rest, st =>
    let p := upsert_product_mig st r.name
    match add_subscription_mig customers p.1 r.customer_id p.2 r.expires_at r.content with
    | none => (p.1, false)
    | some q => migrate_rows customers rest q.1

/-- `_maybe_migrate_legacy` (db.py lines 141-197) after the legacy shape has
been detected: the rename of `products` to `legacy_products` (line 155)
and the new-schema creation (line 163, whose `executescript` also commits
the rename) have already durably happened when the row loop starts, so the
loop begins from a committed state with the backup table present and the
new tables empty. -/
def maybe_migrate_legacy (customers : List Int) (legacyRows : List LegacyRow) :
    MigState × Bool :=
  migrate_rows customers legacyRows ⟨true, [], [], 1, 1⟩

/-! ## Helper lemmas -/

theorem foldl_min_le_init (xs : List Int) (a : Int) : xs.foldl min a ≤ a := by
  induction xs generalizing a with
  | nil => exact le_refl a
  | cons x xs ih =>
    simpa using le_trans (ih (min a x)) (min_le_left a x)

theorem foldl_min_le_of_mem (xs : List Int) (a x : Int) (hx : x ∈ xs) :
    xs.foldl min a ≤ x := by
  induction xs generalizing a with
  | nil => cases hx
  | cons y ys ih =>
    rcases List.mem_cons.mp hx with h | h
    · subst h
      simpa using le_trans (foldl_min_le_init ys (min a x)) (min_le_right a x)
    · simpa using ih (min a y) h

theorem foldl_min_mem (xs : List Int) (a : Int) :
    xs.foldl min a = a ∨ xs.foldl min a ∈ xs := by
  induction xs generalizing a with
  | nil => exact Or.inl rfl
  | cons y ys ih =>
    rcases ih (min a y) with h | h
    · rcases min_choice a y with hc | hc
      · left; simpa [h] using hc
      · right
        rw [List.foldl_cons, h, hc]
        exact List.mem_cons_self y ys
    · right; exact List.mem_cons_of_mem y (by simpa using h)

theorem foldl_max_init_le (xs : List Int) (a : Int) : a ≤ xs.foldl max a := by
  induction xs generalizing a with
  | nil => exact le_refl a
  | cons x xs ih =>
    simpa using le_trans (le_max_left a x) (ih (max a x))

theorem foldl_max_of_mem_le (xs : List Int) (a x : Int) (hx : x ∈ xs) :
    x ≤ xs.foldl max a := by
  induction xs generalizing a with
  | nil => cases hx
  | cons y ys ih =>
    rcases List.mem_cons.mp hx with h | h
    · subst h
      simpa using le_trans (le_max_right a x) (foldl_max_init_le ys (max a x))
    · simpa using ih (max a y) h

theorem foldl_max_mem (xs : List Int) (a : Int) :
    xs.foldl max a = a ∨ xs.foldl max a ∈ xs := by
  induction xs generalizing a with
  | nil => exact Or.inl rfl
  | cons y ys ih =>
    rcases ih (max a y) with h | h
    · rcases max_choice a y with hc | hc
      · left; simpa [h] using hc
      · right
        rw [List.foldl_cons, h, hc]
        exact List.mem_cons_self y ys
    · right; exact List.mem_cons_of_mem y (by simpa using h)

theorem listMaxOr0_of_mem_le (l : List Int) (x : Int) (hx : x ∈ l) :
    x ≤ listMaxOr0 l := by
  cases l with
  | nil => cases hx
  | cons y ys =>
    rcases List.mem_cons.mp hx with h | h
    · subst h; exact foldl_max_init_le ys x
    · exact foldl_max_of_mem_le ys y x h

theorem listMaxOr0_mem (l : List Int) (hl : l ≠ []) : listMaxOr0 l ∈ l := by
  cases l with
  | nil => exact absurd rfl hl
  | cons y ys =>
    rcases foldl_max_mem ys y with h | h
    · simp only [listMaxOr0, h]; exact List.mem_cons_self y ys
    · exact List.mem_cons_of_mem y (by simpa [listMaxOr0] using h)

theorem mem_mark_sent_on (led : Ledger) (sid d : Int) (p : Int × Int)
    (hp : p ∈ led) : p ∈ mark_sent_on led sid d := by
  unfold mark_sent_on
  split
  · exact hp
  · exact List.mem_cons_of_mem _ hp

theorem mem_mark_sent_on_self (led : Ledger) (sid d : Int) :
    (sid, d) ∈ mark_sent_on led sid d := by
  unfold mark_sent_on
  split
  · assumption
  · exact List.mem_cons_self _ _

theorem was_sent_on_true_iff (led : Ledger) (sid d : Int) :
    was_sent_on led sid d = true ↔ (sid, d) ∈ led := by
  simp [was_sent_on]

theorem countPair_eq_zero_iff (led : Ledger) (sid d : Int) :
    countPair led sid d = 0 ↔ (sid, d) ∉ led := by
  induction led with
  | nil => simp [countPair]
  | cons p ps ih =>
    by_cases h : p = (sid, d)
    · subst h; simp [countPair, ih]
    · simp [countPair, h, ih, Ne.symm h]

/-! ## C3 — Rule Resolver -/

/-- C3: `pick_rule_for_display` clamps the remaining days to
`d' = max(d, 0)`; among configured thresholds it returns the smallest one
that is `≥ d'`; when every threshold is `< d'` it returns the largest
threshold; for an empty rule list it returns `d'`; and the six documented
sample values for `R = [30, 7, 1, 0]` all hold. -/
theorem rule_resolver_spec (rules : List Int) (d : Int) :
    (rules = [] → pick_rule_for_display rules d = max d 0) ∧
    ((∃ r ∈ rules, max d 0 ≤ r) →
      pick_rule_for_display rules d ∈ rules ∧
      max d 0 ≤ pick_rule_for_display rules d ∧
      ∀ r ∈ rules, max d 0 ≤ r → pick_rule_for_display rules d ≤ r) ∧
    (rules ≠ [] → (∀ r ∈ rules, r < max d 0) →
      pick_rule_for_display rules d ∈ rules ∧
      ∀ r ∈ rules, r ≤ pick_rule_for_display rules d) ∧
    (pick_rule_for_display [30, 7, 1, 0] 20 = 30 ∧
     pick_rule_for_display [30, 7, 1, 0] 5 = 7 ∧
     pick_rule_for_display [30, 7, 1, 0] 1 = 1 ∧
     pick_rule_for_display [30, 7, 1, 0] 0 = 0 ∧
     pick_rule_for_display [30, 7, 1, 0] (-3) = 0 ∧
     pick_rule_for_display [30, 7, 1, 0] 45 = 30) := by
  refine ⟨?_, ?_, ?_, by decide⟩
  · intro h; subst h; rfl
  all_goals
    cases rules with
    | nil => simp
    | cons r rs => ?_
  · intro hex
    have hres :
        pick_rule_for_display (r :: rs) d =
          match (r :: rs).filter (fun x => max d 0 ≤ x) with
          | [] => listMaxOr0 (r :: rs)
          | c :: cs => listMinNonempty c cs := rfl
    cases hf : (r :: rs).filter (fun x => max d 0 ≤ x) with
    | nil =>
      exfalso
      obtain ⟨x, hx, hdx⟩ := hex
      have : x ∈ (r :: rs).filter (fun x => max d 0 ≤ x) :=
        List.mem_filter.mpr ⟨hx, by simpa using hdx⟩
      rw [hf] at this
      cases this
    | cons c cs =>
      rw [hres, hf]
      have hmemc : ∀ x, x ∈ c :: cs → x ∈ r :: rs ∧ max d 0 ≤ x := by
        intro x hx
        have : x ∈ (r :: rs).filter (fun x => max d 0 ≤ x) := by rw [hf]; exact hx
        have h2 := List.mem_filter.mp this
        exact ⟨h2.1, by simpa using h2.2⟩
      have hminmem : listMinNonempty c cs = c ∨ listMinNonempty c cs ∈ cs :=
        foldl_min_mem cs c
      have hresmem : listMinNonempty c cs ∈ c :: cs := by
        rcases hminmem with h | h
        · rw [h]; exact List.mem_cons_self c cs
        · exact List.mem_cons_of_mem c h
      refine ⟨(hmemc _ hresmem).1, (hmemc _ hresmem).2, ?_⟩
      intro x hx hdx
      have : x ∈ c :: cs := by
        have : x ∈ (r :: rs).filter (fun x => max d 0 ≤ x) :=
          List.mem_filter.mpr ⟨hx, by simpa using hdx⟩
        rw [hf] at this; exact this
      rcases List.mem_cons.mp this with h | h
      · subst h; exact foldl_min_le_init cs x
      · exact foldl_min_le_of_mem cs c x h
  · intro _ hall
    have hres :
        pick_rule_for_display (r :: rs) d =
          match (r :: rs).filter (fun x => max d 0 ≤ x) with
          | [] => listMaxOr0 (r :: rs)
          | c :: cs => listMinNonempty c cs := rfl
    cases hf : (r :: rs).filter (fun x => max d 0 ≤ x) with
    | nil =>
      rw [hres, hf]
      exact ⟨listMaxOr0_mem _ (by simp),
        fun x hx => listMaxOr0_of_mem_le _ x hx⟩
    | cons c cs =>
      exfalso
      have : c ∈ (r :: rs).filter (fun x => max d 0 ≤ x) := by
        rw [hf]; exact List.mem_cons_self c cs
      have h2 := List.mem_filter.mp this
      have hge : max d 0 ≤ c := by simpa using h2.2
      exact absurd hge (not_le.mpr (hall c h2.1))

/-- C3 witness: the theorem applied at `R = [30, 7, 1, 0]`, `d = 5`. -/
theorem rule_resolver_spec_witness :
    ((∃ r ∈ [(30 : Int), 7, 1, 0], max 5 0 ≤ r) ∧
      pick_rule_for_display [30, 7, 1, 0] 5 ∈ [(30 : Int), 7, 1, 0] ∧
      max (5 : Int) 0 ≤ pick_rule_for_display [30, 7, 1, 0] 5) :=
  ⟨by decide, (rule_resolver_spec [30, 7, 1, 0] 5).2.1 (by decide) |>.1,
    ((rule_resolver_spec [30, 7, 1, 0] 5).2.1 (by decide)).2.1⟩

/-! ## C4 — the daily-guard insert is idempotent -/

/-- C4: `mark_sent_on` is an idempotent insert: a second call for the same
(id, date) pair is a silent no-op (the function is total, so it never
raises); marking a fresh pair twice leaves exactly one Daily Send Record
for it; and the at-most-one-record-per-pair invariant is preserved by
every call. -/
theorem mark_sent_on_idempotent_spec (led : Ledger) (sid d : Int) :
    mark_sent_on (mark_sent_on led sid d) sid d = mark_sent_on led sid d ∧
    (countPair led sid d = 0 →
      countPair (mark_sent_on (mark_sent_on led sid d) sid d) sid d = 1) ∧
    (∀ sid2 d2, countPair led sid2 d2 ≤ 1 →
      countPair (mark_sent_on led sid d) sid2 d2 ≤ 1) := by
  have hidem :
      mark_sent_on (mark_sent_on led sid d) sid d = mark_sent_on led sid d := by
    have hmem := mem_mark_sent_on_self led sid d
    rw [show mark_sent_on (mark_sent_on led sid d) sid d
          = if (sid, d) ∈ mark_sent_on led sid d then mark_sent_on led sid d
            else (sid, d) :: mark_sent_on led sid d from rfl, if_pos hmem]
  refine ⟨hidem, ?_, ?_⟩
  · intro h0
    rw [hidem]
    have hnot : (sid, d) ∉ led := (countPair_eq_zero_iff led sid d).mp h0
    unfold mark_sent_on
    rw [if_neg hnot]
    simp [countPair, (countPair_eq_zero_iff led sid d).mpr hnot]
  · intro sid2 d2 hle
    unfold mark_sent_on
    split
    · exact hle
    · rename_i hnot
      by_cases heq : ((sid : Int), (d : Int)) = (sid2, d2)
      · have : (sid2, d2) ∉ led := by rw [← heq]; exact hnot
        simp [countPair, heq, (countPair_eq_zero_iff led sid2 d2).mpr this]
      · simpa [countPair, heq] using hle

/-- C4 witness: the theorem applied to an empty table and the pair (7, 42). -/
theorem mark_sent_on_idempotent_spec_witness :
    countPair [] 7 42 = 0 ∧
    countPair (mark_sent_on (mark_sent_on [] 7 42) 7 42) 7 42 = 1 :=
  ⟨by decide, (mark_sent_on_idempotent_spec [] 7 42).2.1 (by decide)⟩

/-! ## Scan-loop helper lemmas -/

theorem rowOutcome_of_unparsed {today th : Int} {led : Ledger} {s : SubRow}
    (hexp : s.expires = none) : rowOutcome today th led s = .unparsed := by
  simp [rowOutcome, hexp]

theorem rowOutcome_of_lt {today th e : Int} {led : Ledger} {s : SubRow}
    (hexp : s.expires = some e) (h : e - today < -1) :
    rowOutcome today th led s = .excluded := by
  simp [rowOutcome, hexp, h]

theorem rowOutcome_of_gt {today th e : Int} {led : Ledger} {s : SubRow}
    (hexp : s.expires = some e) (h1 : ¬ e - today < -1) (h2 : e - today > th) :
    rowOutcome today th led s = .excluded := by
  simp [rowOutcome, hexp, h1, h2]

theorem rowOutcome_of_marked {today th e : Int} {led : Ledger} {s : SubRow}
    (hexp : s.expires = some e) (h1 : ¬ e - today < -1) (h2 : ¬ e - today > th)
    (hmem : (s.id, today) ∈ led) :
    rowOutcome today th led s = .alreadySent := by
  simp [rowOutcome, hexp, h1, h2, was_sent_on, hmem]

theorem rowOutcome_of_unmarked {today th e : Int} {led : Ledger} {s : SubRow}
    (hexp : s.expires = some e) (h1 : ¬ e - today < -1) (h2 : ¬ e - today > th)
    (h3 : (s.id, today) ∉ led) :
    rowOutcome today th led s =
      (match send_one s with
       | some true => RowOutcome.sentOk
       | some false => RowOutcome.errored
       | none => RowOutcome.errored) := by
  simp [rowOutcome, hexp, h1, h2, was_sent_on, h3]

theorem rowOutcome_sentOk_elim {today th : Int} {led : Ledger} {s : SubRow}
    (h : rowOutcome today th led s = .sentOk) :
    send_one s = some true ∧ (s.id, today) ∉ led := by
  cases hexp : s.expires with
  | none => rw [rowOutcome_of_unparsed hexp] at h; cases h
  | some e =>
    by_cases h1 : e - today < -1
    · rw [rowOutcome_of_lt hexp h1] at h; cases h
    · by_cases h2 : e - today > th
      · rw [rowOutcome_of_gt hexp h1 h2] at h; cases h
      · by_cases h3 : (s.id, today) ∈ led
        · rw [rowOutcome_of_marked hexp h1 h2 h3] at h; cases h
        · refine ⟨?_, h3⟩
          rw [rowOutcome_of_unmarked hexp h1 h2 h3] at h
          cases hso : send_one s with
          | none => rw [hso] at h; cases h
          | some b =>
            cases b with
            | false => rw [hso] at h; cases h
            | true => rfl

theorem scanStep_checked (today th : Int) (led : Ledger) (st : ScanStats)
    (s : SubRow) : (scanStep today th led st s).1.checked = st.checked + 1 := by
  cases ho : rowOutcome today th led s <;> simp [scanStep, ho]

theorem scanStep_skipped_le (today th : Int) (led : Ledger) (st : ScanStats)
    (s : SubRow) : st.skipped ≤ (scanStep today th led st s).1.skipped := by
  cases ho : rowOutcome today th led s <;> simp [scanStep, ho]

theorem scanStep_ledger_not_sentOk {today th : Int} {led : Ledger}
    {st : ScanStats} {s : SubRow} (h : rowOutcome today th led s ≠ .sentOk) :
    (scanStep today th led st s).2 = led := by
  cases ho : rowOutcome today th led s
  case sentOk => exact absurd ho h
  all_goals simp [scanStep, ho]

theorem scanStep_ledger_sentOk {today th : Int} {led : Ledger}
    {st : ScanStats} {s : SubRow} (h : rowOutcome today th led s = .sentOk) :
    (scanStep today th led st s).2 = mark_sent_on led s.id today := by
  simp [scanStep, h]

theorem scanStep_ledger_mono (today th : Int) (led : Ledger) (st : ScanStats)
    (s : SubRow) (p : Int × Int) (hp : p ∈ led) :
    p ∈ (scanStep today th led st s).2 := by
  by_cases h : rowOutcome today th led s = .sentOk
  · rw [scanStep_ledger_sentOk h]; exact mem_mark_sent_on led s.id today p hp
  · rw [scanStep_ledger_not_sentOk h]; exact hp

theorem scanLoop_cons (today th : Int) (s : SubRow) (rest : List SubRow)
    (st : ScanStats) (led : Ledger) :
    scanLoop today th (s :: rest) st led
      = scanLoop today th rest (scanStep today th led st s).1
          (scanStep today th led st s).2 := rfl

theorem scanLoop_checked (today th : Int) (subs : List SubRow) :
    ∀ (st : ScanStats) (led : Ledger),
      (scanLoop today th subs st led).1.checked = st.checked + subs.length := by
  induction subs with
  | nil => intro st led; simp [scanLoop]
  | cons s rest ih =>
    intro st led
    rw [scanLoop_cons, ih, scanStep_checked]
    simp [Nat.add_assoc, Nat.add_comm 1 rest.length]

theorem scanLoop_skipped_mono (today th : Int) (subs : List SubRow) :
    ∀ (st : ScanStats) (led : Ledger),
      st.skipped ≤ (scanLoop today th subs st led).1.skipped := by
  induction subs with
  | nil => intro st led; simp [scanLoop]
  | cons s rest ih =>
    intro st led
    rw [scanLoop_cons]
    exact le_trans (scanStep_skipped_le today th led st s) (ih _ _)

theorem scanLoop_balance (today th : Int) (subs : List SubRow) :
    ∀ (st : ScanStats) (led : Ledger),
      (scanLoop today th subs st led).1.eligible
          + (st.skipped + st.sent + st.errors)
        = st.eligible
          + ((scanLoop today th subs st led).1.skipped
              + (scanLoop today th subs st led).1.sent
              + (scanLoop today th subs st led).1.errors) := by
  induction subs with
  | nil => intro st led; simp [scanLoop]
  | cons s rest ih =>
    intro st led
    rw [scanLoop_cons]
    have h := ih (scanStep today th led st s).1 (scanStep today th led st s).2
    cases ho : rowOutcome today th led s <;>
      simp only [scanStep, ho] at h ⊢ <;> omega

theorem scanLoop_ledger_mono (today th : Int) (subs : List SubRow) :
    ∀ (st : ScanStats) (led : Ledger) (p : Int × Int),
      p ∈ led → p ∈ (scanLoop today th subs st led).2 := by
  induction subs with
  | nil => intro st led p hp; simpa [scanLoop] using hp
  | cons s rest ih =>
    intro st led p hp
    rw [scanLoop_cons]
    exact ih _ _ p (scanStep_ledger_mono today th led st s p hp)

theorem sentIds_cons_sentOk {today th : Int} {led : Ledger} {s : SubRow}
    (rest : List SubRow) (h : rowOutcome today th led s = .sentOk) :
    sentIds today th (s :: rest) led
      = s.id :: sentIds today th rest (mark_sent_on led s.id today) := by
  simp [sentIds, h]

theorem sentIds_cons_not_sentOk {today th : Int} {led : Ledger} {s : SubRow}
    (rest : List SubRow) (h : rowOutcome today th led s ≠ .sentOk) :
    sentIds today th (s :: rest) led = sentIds today th rest led := by
  cases ho : rowOutcome today th led s
  case sentOk => exact absurd ho h
  all_goals simp [sentIds, ho]

theorem sentIds_marked (today th : Int) (subs : List SubRow) :
    ∀ (led : Ledger) (st : ScanStats) (sid : Int),
      sid ∈ sentIds today th subs led →
      (sid, today) ∈ (scanLoop today th subs st led).2 := by
  induction subs with
  | nil => intro led st sid h; cases h
  | cons s rest ih =>
    intro led st sid h
    rw [scanLoop_cons]
    by_cases ho : rowOutcome today th led s = .sentOk
    · rw [sentIds_cons_sentOk rest ho] at h
      rw [scanStep_ledger_sentOk ho]
      rcases List.mem_cons.mp h with heq | hmem
      · subst heq
        exact scanLoop_ledger_mono today th rest _ _ _
          (mem_mark_sent_on_self led s.id today)
      · exact ih _ _ _ hmem
    · rw [sentIds_cons_not_sentOk rest ho] at h
      rw [scanStep_ledger_not_sentOk ho]
      exact ih _ _ _ h

theorem marked_not_sent_again (today th : Int) (subs : List SubRow) :
    ∀ (led : Ledger) (sid : Int), (sid, today) ∈ led →
      sid ∉ sentIds today th subs led := by
  induction subs with
  | nil => intro led sid _ h; cases h
  | cons s rest ih =>
    intro led sid hmem
    by_cases ho : rowOutcome today th led s = .sentOk
    · rw [sentIds_cons_sentOk rest ho]
      intro hc
      rcases List.mem_cons.mp hc with heq | hmem2
      · rcases rowOutcome_sentOk_elim ho with ⟨_, hnot⟩
        exact hnot (heq ▸ hmem)
      · exact ih (mark_sent_on led s.id today) sid
          (mem_mark_sent_on led s.id today _ hmem) hmem2
    · rw [sentIds_cons_not_sentOk rest ho]
      exact ih led sid hmem

theorem marked_row_counts_skipped (today th : Int) (subs : List SubRow) :
    ∀ (st : ScanStats) (led : Ledger) (s : SubRow) (e : Int),
      s ∈ subs → s.expires = some e → ¬ e - today < -1 → ¬ e - today > th →
      (s.id, today) ∈ led →
      st.skipped + 1 ≤ (scanLoop today th subs st led).1.skipped := by
  induction subs with
  | nil => intro _ _ _ _ h; cases h
  | cons y rest ih =>
    intro st led s e hmem hexp h1 h2 hled
    rw [scanLoop_cons]
    rcases List.mem_cons.mp hmem with heq | hmem2
    · subst heq
      have ho : rowOutcome today th led s = .alreadySent :=
        rowOutcome_of_marked hexp h1 h2 hled
      have hstep : (scanStep today th led st s).1.skipped = st.skipped + 1 := by
        simp [scanStep, ho]
      have hmono := scanLoop_skipped_mono today th rest
        (scanStep today th led st s).1 (scanStep today th led st s).2
      omega
    · have hstep := scanStep_skipped_le today th led st y
      have hl := scanStep_ledger_mono today th led st y _ hled
      have := ih (scanStep today th led st y).1 (scanStep today th led st y).2
        s e hmem2 hexp h1 h2 hl
      omega

theorem scan_and_send_stats (rulesS : Option (List Int)) (man : Option Int)
    (today : Int) (subs : List SubRow) (led : Ledger) :
    (scan_and_send rulesS man today subs led).stats
      = (scanLoop today (effective_threshold rulesS man) subs initStats led).1 := rfl

theorem scan_and_send_ledger (rulesS : Option (List Int)) (man : Option Int)
    (today : Int) (subs : List SubRow) (led : Ledger) :
    (scan_and_send rulesS man today subs led).ledger
      = (scanLoop today (effective_threshold rulesS man) subs initStats led).2 := rfl

/-! ## C2 — eligibility window and effective threshold -/

/-- C2: a parsed subscription row with `d = expiry - today` is excluded by
the scan when `d < -1` or `d > effective_threshold` (the step bumps only
the checked counter and never writes the ledger), and counted eligible
otherwise; the effective threshold is the explicit value in manual mode
and the largest normalized configured rule in automatic mode. -/
theorem eligibility_window_spec (rulesS : Option (List Int)) (today t : Int)
    (led : Ledger) (st : ScanStats) (s : SubRow) (e : Int)
    (hexp : s.expires = some e) :
    (∀ th : Int, e - today < -1 →
      rowOutcome today th led s = .excluded ∧
      scanStep today th led st s = ({ st with checked := st.checked + 1 }, led)) ∧
    (∀ th : Int, e - today > th →
      rowOutcome today th led s = .excluded ∧
      scanStep today th led st s = ({ st with checked := st.checked + 1 }, led)) ∧
    (∀ th : Int, -1 ≤ e - today → e - today ≤ th →
      rowOutcome today th led s ≠ .unparsed ∧
      rowOutcome today th led s ≠ .excluded ∧
      (scanStep today th led st s).1.eligible = st.eligible + 1) ∧
    effective_threshold rulesS (some t) = t ∧
    (∀ r ∈ normalizeRules (rulesS.getD DEFAULT_RULES),
      r ≤ effective_threshold rulesS none) ∧
    (normalizeRules (rulesS.getD DEFAULT_RULES) ≠ [] →
      effective_threshold rulesS none ∈ normalizeRules (rulesS.getD DEFAULT_RULES)) := by
  refine ⟨?_, ?_, ?_, rfl, ?_, ?_⟩
  · intro th h
    have ho := @rowOutcome_of_lt today th e led s hexp h
    exact ⟨ho, by simp [scanStep, ho]⟩
  · intro th h
    by_cases h1 : e - today < -1
    · have ho := @rowOutcome_of_lt today th e led s hexp h1
      exact ⟨ho, by simp [scanStep, ho]⟩
    · have ho := @rowOutcome_of_gt today th e led s hexp h1 h
      exact ⟨ho, by simp [scanStep, ho]⟩
  · intro th hlo hhi
    have h1 : ¬ e - today < -1 := not_lt.mpr hlo
    have h2 : ¬ e - today > th := not_lt.mpr hhi
    by_cases h3 : (s.id, today) ∈ led
    · have ho := rowOutcome_of_marked hexp h1 h2 h3
      exact ⟨by simp [ho], by simp [ho], by simp [scanStep, ho]⟩
    · have ho := rowOutcome_of_unmarked hexp h1 h2 h3
      cases hso : send_one s with
      | none =>
        rw [hso] at ho
        exact ⟨by simp [ho], by simp [ho], by simp [scanStep, ho]⟩
      | some b =>
        cases b with
        | false =>
          rw [hso] at ho
          exact ⟨by simp [ho], by simp [ho], by simp [scanStep, ho]⟩
        | true =>
          rw [hso] at ho
          exact ⟨by simp [ho], by simp [ho], by simp [scanStep, ho]⟩
  · intro r hr
    exact listMaxOr0_of_mem_le _ r hr
  · intro hne
    exact listMaxOr0_mem _ hne

/-- C2 witness: the theorem applied to a row five days past expiry
(excluded), a row inside the window (eligible), and both threshold modes. -/
theorem eligibility_window_spec_witness :
    (rowOutcome 100 30 [] ⟨1, some 95, "a", false⟩ = .excluded ∧
      scanStep 100 30 [] initStats ⟨1, some 95, "a", false⟩
        = ({ initStats with checked := 1 }, [])) ∧
    effective_threshold none (some 3) = 3 :=
  ⟨by
    have h := (eligibility_window_spec none 100 3 [] initStats
      ⟨1, some 95, "a", false⟩ 95 rfl).1 30 (by decide)
    simpa [initStats] using h,
   (eligibility_window_spec none 100 3 [] initStats
      ⟨1, some 95, "a", false⟩ 95 rfl).2.2.2.1⟩

/-! ## C6 — marking only on confirmed success; per-row error isolation -/

/-- C6: the scan writes a Daily Send Record only in the confirmed-success
branch (every other branch leaves the ledger untouched, and the success
branch implies the mail call returned success); an eligible, unguarded row
whose stripped customer email is empty is counted as an error and never
marked; an exception from rendering/transport is likewise folded into the
error counter without marking; and the loop always examines every
candidate row (no error aborts the batch). -/
theorem send_marking_and_error_isolation_spec (today th : Int) (led : Ledger)
    (st : ScanStats) (s : SubRow) (subs : List SubRow) :
    (rowOutcome today th led s ≠ .sentOk → (scanStep today th led st s).2 = led) ∧
    (rowOutcome today th led s = .sentOk →
      (scanStep today th led st s).2 = mark_sent_on led s.id today ∧
      send_one s = some true) ∧
    (∀ e, s.expires = some e → -1 ≤ e - today → e - today ≤ th →
      was_sent_on led s.id today = false → pyStrip s.customer_email = "" →
      rowOutcome today th led s = .errored ∧
      (scanStep today th led st s).1.errors = st.errors + 1 ∧
      (scanStep today th led st s).2 = led) ∧
    (∀ e, s.expires = some e → -1 ≤ e - today → e - today ≤ th →
      was_sent_on led s.id today = false → s.transportFails = true →
      rowOutcome today th led s = .errored ∧
      (scanStep today th led st s).1.errors = st.errors + 1 ∧
      (scanStep today th led st s).2 = led) ∧
    (scanLoop today th subs st led).1.checked = st.checked + subs.length := by
  refine ⟨?_, ?_, ?_, ?_, scanLoop_checked today th subs st led⟩
  · exact fun h => scanStep_ledger_not_sentOk h
  · intro h
    exact ⟨scanStep_ledger_sentOk h, (rowOutcome_sentOk_elim h).1⟩
  · intro e hexp hlo hhi hguard hmail
    have h3 : (s.id, today) ∉ led := by
      intro hc
      rw [(was_sent_on_true_iff led s.id today).mpr hc] at hguard
      cases hguard
    have ho := rowOutcome_of_unmarked hexp (not_lt.mpr hlo) (not_lt.mpr hhi) h3
    have hso : send_one s = some false := by simp [send_one, hmail]
    rw [hso] at ho
    exact ⟨ho, by simp [scanStep, ho], by simp [scanStep, ho]⟩
  · intro e hexp hlo hhi hguard hfail
    have h3 : (s.id, today) ∉ led := by
      intro hc
      rw [(was_sent_on_true_iff led s.id today).mpr hc] at hguard
      cases hguard
    have ho := rowOutcome_of_unmarked hexp (not_lt.mpr hlo) (not_lt.mpr hhi) h3
    by_cases hmail : pyStrip s.customer_email = ""
    · have hso : send_one s = some false := by simp [send_one, hmail]
      rw [hso] at ho
      exact ⟨ho, by simp [scanStep, ho], by simp [scanStep, ho]⟩
    · have hso : send_one s = none := by simp [send_one, hmail, hfail]
      rw [hso] at ho
      exact ⟨ho, by simp [scanStep, ho], by simp [scanStep, ho]⟩

/-- C6 witness: the theorem applied to a row with an empty customer email
inside the window against an empty ledger. -/
theorem send_marking_and_error_isolation_spec_witness :
    rowOutcome 100 30 [] ⟨1, some 105, " ", false⟩ = .errored ∧
    (scanStep 100 30 [] initStats ⟨1, some 105, " ", false⟩).1.errors = 1 ∧
    (scanStep 100 30 [] initStats ⟨1, some 105, " ", false⟩).2 = [] := by
  have h := (send_marking_and_error_isolation_spec 100 30 [] initStats
    ⟨1, some 105, " ", false⟩ []).2.2.1 105 rfl (by decide) (by decide)
    (by decide) (by decide)
  simpa [initStats] using h

/-! ## C10 — counter identities of a scan run -/

/-- C10: every scan run satisfies `checked = |candidates|` (each candidate
row is examined, including rows whose expiry fails to parse) and
`eligible = skipped_already_sent_today + sent + errors`; a row whose
expiry fails to parse contributes only to the checked counter — it is
silently skipped, touching neither the other counters nor the ledger. -/
theorem scan_counter_identities_spec (rulesS : Option (List Int))
    (man : Option Int) (today : Int) (subs : List SubRow) (led : Ledger) :
    (scan_and_send rulesS man today subs led).stats.checked = subs.length ∧
    (scan_and_send rulesS man today subs led).stats.eligible
      = (scan_and_send rulesS man today subs led).stats.skipped
        + (scan_and_send rulesS man today subs led).stats.sent
        + (scan_and_send rulesS man today subs led).stats.errors ∧
    (∀ (led2 : Ledger) (st : ScanStats) (s : SubRow), s.expires = none →
      scanStep today (effective_threshold rulesS man) led2 st s
        = ({ st with checked := st.checked + 1 }, led2)) := by
  refine ⟨?_, ?_, ?_⟩
  · rw [scan_and_send_stats, scanLoop_checked]
    simp [initStats]
  · rw [scan_and_send_stats]
    have h := scanLoop_balance today (effective_threshold rulesS man) subs initStats led
    simpa [initStats] using h
  · intro led2 st s hexp
    have ho := @rowOutcome_of_unparsed today (effective_threshold rulesS man)
      led2 s hexp
    simp [scanStep, ho]

/-- C10 witness: the theorem applied to one parseable and one unparseable
row. -/
theorem scan_counter_identities_spec_witness :
    (scan_and_send none none 100 [⟨1, some 105, "a", false⟩, ⟨2, none, "b", false⟩]
        []).stats.checked = 2 ∧
    scanStep 100 (effective_threshold none none) [] initStats ⟨2, none, "b", false⟩
      = ({ initStats with checked := 1 }, []) :=
  ⟨(scan_counter_identities_spec none none 100
      [⟨1, some 105, "a", false⟩, ⟨2, none, "b", false⟩] []).1,
   by
    have h := (scan_counter_identities_spec none none 100
      [⟨1, some 105, "a", false⟩, ⟨2, none, "b", false⟩] []).2.2 [] initStats
      ⟨2, none, "b", false⟩ rfl
    simpa [initStats] using h⟩

/-! ## C1 — at most one reminder per subscription per calendar day -/

/-- C1: if a scan run successfully sent a reminder to subscription `s`
today, then the Daily Send Record for (`s.id`, today) is present in the
ledger the run leaves behind; any same-day rerun finds that record in the
daily-guard check (`rowOutcome = alreadySent`), sends nothing further
to that subscription, and counts it as skipped-already-sent. -/
theorem scan_rerun_sends_at_most_once
    (rulesS : Option (List Int)) (man1 man2 : Option Int) (today : Int)
    (subs1 subs2 : List SubRow) (led0 : Ledger) (s : SubRow) (e : Int)
    (hsent : s.id ∈ sentIds today (effective_threshold rulesS man1) subs1 led0)
    (hmem : s ∈ subs2) (hexp : s.expires = some e)
    (hlo : -1 ≤ e - today) (hhi : e - today ≤ effective_threshold rulesS man2) :
    (s.id, today) ∈ (scan_and_send rulesS man1 today subs1 led0).ledger ∧
    rowOutcome today (effective_threshold rulesS man2)
        (scan_and_send rulesS man1 today subs1 led0).ledger s = .alreadySent ∧
    s.id ∉ sentIds today (effective_threshold rulesS man2) subs2
        (scan_and_send rulesS man1 today subs1 led0).ledger ∧
    1 ≤ (scan_and_send rulesS man2 today subs2
        (scan_and_send rulesS man1 today subs1 led0).ledger).stats.skipped := by
  have hmark : (s.id, today)
      ∈ (scan_and_send rulesS man1 today subs1 led0).ledger := by
    rw [scan_and_send_ledger]
    exact sentIds_marked today (effective_threshold rulesS man1) subs1 led0
      initStats s.id hsent
  refine ⟨hmark,
    rowOutcome_of_marked hexp (not_lt.mpr hlo) (not_lt.mpr hhi) hmark,
    marked_not_sent_again today (effective_threshold rulesS man2) subs2 _
      s.id hmark, ?_⟩
  rw [scan_and_send_stats]
  have h := marked_row_counts_skipped today (effective_threshold rulesS man2)
    subs2 initStats _ s e hmem hexp (not_lt.mpr hlo) (not_lt.mpr hhi) hmark
  simpa [initStats] using h

/-- C1 witness: one subscription five days from expiry, default rules;
the first scan sends, the same-day rerun skips it. -/
theorem scan_rerun_sends_at_most_once_witness :
    ((1 : Int) ∈ sentIds 100 (effective_threshold none none)
        [⟨1, some 105, "a", false⟩] []) ∧
    (((1 : Int), (100 : Int))
        ∈ (scan_and_send none none 100 [⟨1, some 105, "a", false⟩] []).ledger ∧
      rowOutcome 100 (effective_threshold none none)
          (scan_and_send none none 100 [⟨1, some 105, "a", false⟩] []).ledger
          ⟨1, some 105, "a", false⟩ = .alreadySent ∧
      (1 : Int) ∉ sentIds 100 (effective_threshold none none)
          [⟨1, some 105, "a", false⟩]
          (scan_and_send none none 100 [⟨1, some 105, "a", false⟩] []).ledger ∧
      1 ≤ (scan_and_send none none 100 [⟨1, some 105, "a", false⟩]
          (scan_and_send none none 100
            [⟨1, some 105, "a", false⟩] []).ledger).stats.skipped) :=
  ⟨by decide,
   scan_rerun_sends_at_most_once none none none 100 [⟨1, some 105, "a", false⟩]
     [⟨1, some 105, "a", false⟩] [] ⟨1, some 105, "a", false⟩ 105 (by decide)
     (by decide) rfl (by decide) (by decide)⟩

/-! ## C5 — send_subscription_now and the daily guard -/

/-- C5 counterexample: with the Daily Send Record (1, day 100) already in
the table, `send_subscription_now` on subscription 1 still dispatches the
email on day 100 (the result is the success dict, which the source only
returns after `_send_one` has sent), refuting the claim that an existing
record for (id, today) prevents the send. -/
theorem send_now_bypasses_daily_guard_cex :
    was_sent_on [((1 : Int), (100 : Int))] 1 100 = true ∧
    send_subscription_now none 100 [(1, 100)] (some ⟨1, some 105, "a", false⟩)
      = some (.ok "a" 100 5, [(1, 100)]) := by decide

/-- C5 amended: `send_subscription_now` bypasses the eligibility-window
check AND the daily-guard check — for an existing subscription with a
nonempty customer email and a working transport it always sends,
regardless of the remaining days and regardless of any existing Daily
Send Record — and on success it inserts the Daily Send Record for today
(idempotently), so the manual send counts toward already-sent-today for
subsequent scans. -/
theorem send_now_amended_spec (rulesS : Option (List Int)) (today : Int)
    (led : Ledger) (s : SubRow) (e : Int)
    (hexp : s.expires = some e) (hmail : pyStrip s.customer_email ≠ "")
    (hok : s.transportFails = false) :
    send_subscription_now rulesS today led (some s)
      = some (.ok s.customer_email today (e - today),
              mark_sent_on led s.id today) ∧
    was_sent_on (mark_sent_on led s.id today) s.id today = true := by
  have hso : send_one s = some true := by simp [send_one, hmail, hok]
  constructor
  · simp [send_subscription_now, hexp, hso]
  · exact (was_sent_on_true_iff _ _ _).mpr (mem_mark_sent_on_self led s.id today)

/-- C5 amended witness: the theorem applied to subscription 1 on day 100. -/
theorem send_now_amended_spec_witness :
    send_subscription_now none 100 [] (some ⟨1, some 105, "a", false⟩)
      = some (.ok "a" 100 (105 - 100), mark_sent_on [] 1 100) ∧
    was_sent_on (mark_sent_on [] 1 100) 1 100 = true :=
  send_now_amended_spec none 100 [] ⟨1, some 105, "a", false⟩ 105 rfl
    (by decide) rfl

/-! ## C7 — the legacy migration is not all-or-nothing -/

/-- C7: at the failing input (two legacy rows, the second referencing a
customer id absent from `customers`), the migration aborts with the
foreign-key failure (`false`) yet durably keeps a strict nonempty subset
of the legacy data: row 1 is committed as a subscription (and both
products are committed) because `upsert_product` and `add_subscription`
commit per row; the renamed legacy backup table is also still present.
The claim (and db.py's evident single-transaction design: the helpers
accept the shared migration connection and `_maybe_migrate_legacy` ends
with one final commit) requires all-or-nothing, so this is a code bug:
the unconditional `conn.commit()` inside the helpers (db.py lines 306,
395) and the implicit COMMIT of `executescript` (line 163) defeat it. -/
theorem migration_commits_prefix_on_failure :
    maybe_migrate_legacy [1]
        [⟨1, 1, "p1", none, "2024-01-01"⟩, ⟨2, 2, "p2", none, "2024-02-01"⟩]
      = (⟨true, [(1, "p1"), (2, "p2")], [⟨1, 1, 1, "2024-01-01", none⟩], 3, 2⟩,
         false) := by decide

/-! ## C8 — upsert_customer never rejects an empty email -/

/-- C8 counterexample: an email that normalizes to the empty string is
accepted — `upsert_customer` succeeds, inserts a customer row with empty
email and returns its id — refuting the claim that it fails with a
`ConstraintError` for empty normalized emails (SQLite's NOT NULL rejects
only NULL, never the empty string, and db.py has no emptiness check). -/
theorem upsert_customer_empty_email_cex :
    pyLower (pyStrip "  ") = "" ∧
    upsert_customer [] 1 "  " none = ([⟨1, "", none⟩], 1, 2) := by decide

/-- C8 amended: `upsert_customer` normalizes the email (strip, lowercase),
inserts a new customer or updates the name on email conflict, and returns
an id whose row carries the normalized email and the given name; it never
fails — every input email, including one normalizing to the empty string,
succeeds. Every row of the resulting table is either an untouched original
row or carries the normalized email with the new name. -/
theorem upsert_customer_amended_spec (table : List CustomerRow) (nextId : Int)
    (email : String) (name : Option String) :
    (⟨(upsert_customer table nextId email name).2.1,
        pyLower (pyStrip email), name⟩ : CustomerRow)
      ∈ (upsert_customer table nextId email name).1 ∧
    ∀ c ∈ (upsert_customer table nextId email name).1,
      c ∈ table ∨ (c.email = pyLower (pyStrip email) ∧ c.name = name) := by
  simp only [upsert_customer]
  cases hf : table.find? (fun c => c.email == pyLower (pyStrip email)) with
  | none =>
    simp only
    constructor
    · exact List.mem_append_right _ (List.mem_singleton.mpr rfl)
    · intro c hc
      rcases List.mem_append.mp hc with h | h
      · exact Or.inl h
      · right
        rw [List.mem_singleton.mp h]
        exact ⟨rfl, rfl⟩
  | some c0 =>
    have hbeq := List.find?_some hf
    have hc0mem := List.mem_of_find?_eq_some hf
    have hc0email : c0.email = pyLower (pyStrip email) := eq_of_beq hbeq
    simp only
    constructor
    · refine List.mem_map.mpr ⟨c0, hc0mem, ?_⟩
      obtain ⟨cid, cemail, cname⟩ := c0
      simp only at hc0email
      simp [hc0email]
    · intro c hc
      rcases List.mem_map.mp hc with ⟨r, hr, hfr⟩
      by_cases hre : r.email = pyLower (pyStrip email)
      · right
        rw [← hfr]
        simp [hre]
      · left
        rw [← hfr]
        simpa [hre] using hr

/-- C8 amended witness: the theorem applied to an empty table and the raw
email consisting of an uppercase letter and a space. -/
theorem upsert_customer_amended_spec_witness :
    (⟨(upsert_customer [] 1 "A " none).2.1,
        pyLower (pyStrip "A "), none⟩ : CustomerRow)
      ∈ (upsert_customer [] 1 "A " none).1 ∧
    ∀ c ∈ (upsert_customer [] 1 "A " none).1,
      c ∈ ([] : List CustomerRow)
        ∨ (c.email = pyLower (pyStrip "A ") ∧ c.name = none) :=
  upsert_customer_amended_spec [] 1 "A " none

/-! ## C9 — the settings-save path stores the rules string unnormalized -/

theorem string_data_append (s t : String) : (s ++ t).data = s.data ++ t.data := by
  cases s
  cases t
  rfl

theorem get_set_setting_same (st : Settings) (k v : String) :
    get_setting (set_setting st k v) k = some v := by
  induction st with
  | nil => simp [set_setting, get_setting]
  | cons kv rest ih =>
    by_cases h : kv.1 = k
    · simp [set_setting, get_setting, h]
    · simp [set_setting, get_setting, h, ih]

theorem get_set_setting_other (st : Settings) (k k2 v : String) (hne : k2 ≠ k) :
    get_setting (set_setting st k v) k2 = get_setting st k2 := by
  induction st with
  | nil => simp [set_setting, get_setting, Ne.symm hne]
  | cons kv rest ih =>
    by_cases h : kv.1 = k
    · simp [set_setting, get_setting, h, Ne.symm hne]
    · by_cases h2 : kv.1 = k2
      · simp [set_setting, get_setting, h, h2, hne]
      · simp [set_setting, get_setting, h, h2, ih]

/-- C9 counterexample: saving the settings form with the rules field "xx"
stores the verbatim string "xx" as the `reminder_rules` setting; no list
of integers whatsoever (sorted or not) JSON-encodes to that string, so the
persisted configuration is not a descending duplicate-free list of
non-negative integers after this update. -/
theorem settings_save_raw_string_cex :
    get_setting (settings_save [] "xx" "t" "u") "reminder_rules" = some "xx" ∧
    ¬ ∃ l : List Int, jsonEncodeIntList l = "xx" := by
  constructor
  · decide
  · rintro ⟨l, hl⟩
    have hd : ((("[" : String)
        ++ String.intercalate ", " (l.map fun n => toString n)) ++ "]").data
        = "xx".data := congrArg String.data hl
    rw [string_data_append, string_data_append] at hd
    have hd2 : '[' :: ((String.intercalate ", "
        (l.map fun n => toString n)).data ++ (']' :: [])) = ['x', 'x'] := hd
    rw [List.cons.injEq] at hd2
    exact absurd hd2.1 (by decide)

/-- C9 amended: the web settings-save handler persists the submitted rules
string verbatim (after stripping) with no validation or normalization;
the sorted-descending duplicate-free shape is instead (re)established by
the normalization applied wherever the rules are read (scan_and_send,
send_subscription_now) and by the chat-bot rules-save path, whose common
normalization always yields a descending list without duplicates
(non-negativity is not enforced anywhere). -/
theorem rules_normalization_amended_spec (st : Settings) (r e w : String)
    (l : List Int) :
    get_setting (settings_save st r e w) "reminder_rules" = some (pyStrip r) ∧
    List.Sorted (fun a b => a ≥ b) (normalizeRules l) ∧
    (normalizeRules l).Nodup := by
  refine ⟨?_, ?_, ?_⟩
  · simp only [settings_save]
    rw [get_set_setting_other _ _ _ _ (by decide),
      get_set_setting_other _ _ _ _ (by decide)]
    exact get_set_setting_same st "reminder_rules" (pyStrip r)
  · exact List.sorted_insertionSort _ _
  · exact ((List.perm_insertionSort _ _).nodup_iff).mpr l.nodup_dedup

end XfReminder
